import Mathlib

set_option autoImplicit false

/-!
Shallow embedding of the k-ary min-heap priority queue implemented in
`src/PriorityQueue.ts` (class `PriorityQueue<T>`), together with proofs about it.

Modelling conventions:
* JS numbers used as priorities are modelled by `ℚ` (every priority appearing in the
  theorems below is an integer that is exactly representable as a 64-bit float, so the
  exact arithmetic of `ℚ` agrees with the JS semantics on every computation performed).
* JS `undefined` is modelled by `Option`: a read out of an array's range yields `none`,
  and any `<`/`<=` comparison involving `undefined` is `false` (NaN semantics).
* The interleaved array `_heap` (priority at `2*i`, element-store index at `2*i+1`) is
  modelled as a list of slots `ℚ × Option Nat`; the one statement in the source that
  writes a priority cell alone (`this._heap[0] = priority` in `enqueueDequeue` /
  `dequeueEnqueue`) is modelled by `setPri0`, which leaves the handle cell untouched
  (`none` when the backing array was empty).
* Writing at an index beyond an array's length creates holes, modelled by `none`
  padding (`setPad`).
-/

namespace JsPQ

/-- JavaScript `Number.MAX_SAFE_INTEGER` (2^53 - 1), which `_restoreDown` uses as the
"no child" sentinel. -/
def MSI : ℚ := 9007199254740991

/-- JS `<` on possibly-undefined numbers: a comparison with `undefined` is `false`. -/
def jsLt : Option ℚ → Option ℚ → Bool
  | some a, some b => decide (a < b)
  | _, _ => false

/-- JS `<=` on possibly-undefined numbers: a comparison with `undefined` is `false`. -/
def jsLe : Option ℚ → Option ℚ → Bool
  | some a, some b => decide (a ≤ b)
  | _, _ => false

/-- JS `>`: `a > b` holds exactly when `b < a` (false whenever `undefined` is involved). -/
def jsGt (a b : Option ℚ) : Bool := jsLt b a

/-- Read the priority cell `_heap[2*i]` of heap position `i`; `none` is `undefined`. -/
def priAt {α : Type} (hp : List (ℚ × α)) (i : Nat) : Option ℚ :=
  (hp[i]?).map Prod.fst

/-- The destructuring swaps in `_restoreDown` / `_restoreUp` exchange both cells of two
heap positions; if either position is missing the list is unchanged (no reachable state
triggers that case). -/
def swapSlots {β : Type} (hp : List β) (i j : Nat) : List β :=
  match hp[i]?, hp[j]? with
  | some a, some b => (hp.set i b).set j a
  | _, _ => hp

/-- JS assignment `arr[i] = v` on an array whose cells may be `undefined`: indices
between the old length and `i` become holes (`none`). -/
def setPad {α : Type} (l : List (Option α)) (i : Nat) (v : Option α) : List (Option α) :=
  if i < l.length then l.set i v
  else l ++ List.replicate (i - l.length) none ++ [v]

/-- The child-scanning loop of `_restoreDown`: for the node at `index`, scan its `k`
candidate children (positions `k*index+1 .. k*index+k` that lie below `size`) and return
`(min_child, min_child_index)` exactly as the source computes them.  A child whose
priority is not strictly below the running minimum (which starts at `MSI`) is skipped. -/
def scanStep {α : Type} (k size : Nat) (hp : List (ℚ × α)) (index : Nat)
    (acc : ℚ × Nat) (j : Nat) : ℚ × Nat :=
  if k * index + (j + 1) < size then
    match priAt hp (k * index + (j + 1)) with
    | some p => if p < acc.1 then (p, k * index + (j + 1)) else acc
    | none => acc
  else acc

/-- The full child scan (the candidate offsets `j = 0 .. k-1` correspond to the source
loop counter `i = j + 1 = 1 .. k`). -/
def scanMin {α : Type} (k size : Nat) (hp : List (ℚ × α)) (index : Nat) : ℚ × Nat :=
  (List.range k).foldl (scanStep k size hp index) (MSI, 0)

/-- One fuel-indexed unfolding of the `while (true)` loop of `_restoreDown`.  The loop
index strictly increases below `size` on every iteration, so `size + 1` units of fuel
(as supplied by `restoreDown`) always suffice. -/
def restoreDownGo {α : Type} (k size : Nat) : Nat → List (ℚ × α) → Nat → List (ℚ × α)
  | 0, hp, _ => hp
  | fuel + 1, hp, index =>
    if (scanMin k size hp index).1 = MSI then hp
    else
      restoreDownGo k size fuel
        (if jsGt (priAt hp index) (priAt hp (scanMin k size hp index).2) then
          swapSlots hp index (scanMin k size hp index).2
        else hp)
        (scanMin k size hp index).2

/-- `_restoreDown(index)` run against logical heap length `size`. -/
def restoreDown {α : Type} (k size : Nat) (hp : List (ℚ × α)) (index : Nat) : List (ℚ × α) :=
  restoreDownGo k size (size + 1) hp index

/-- Fuel-indexed unfolding of the `while (parent >= 0)` loop of `_restoreUp`; the index
strictly decreases, so `index + 1` units of fuel always suffice.  At `index = 0` the JS
parent is `-1` and the loop exits. -/
def restoreUpGo {α : Type} (k : Nat) : Nat → List (ℚ × α) → Nat → List (ℚ × α)
  | 0, hp, _ => hp
  | fuel + 1, hp, index =>
    if index = 0 then hp
    else if jsLt (priAt hp index) (priAt hp ((index - 1) / k)) then
      restoreUpGo k fuel (swapSlots hp index ((index - 1) / k)) ((index - 1) / k)
    else hp

/-- `_restoreUp(index)`.  (For `k = 0` the JS parent expression is `Infinity`, whose
priority reads as `undefined` and stops the loop at once; the guard mirrors that.) -/
def restoreUp {α : Type} (k : Nat) (hp : List (ℚ × α)) (index : Nat) : List (ℚ × α) :=
  if k = 0 then hp else restoreUpGo k (index + 1) hp index

/-- Indices visited, in order, by the heapify loop
`for (let i = Math.floor((n - 1) / k); i >= 0; i--) this._restoreDown(i)` of the
constructor and of the bulk branch of `enqueueRange` (there with `n` the pre-insertion
heap size).  For `n = 0` the JS start index is `-1` and the loop body never runs. -/
def heapifySweep (n k : Nat) : List Nat :=
  if n = 0 then [] else (List.range ((n - 1) / k + 1)).reverse

/-- Modelled from the spec (for comparison with `heapifySweep`): the sweep the spec
describes, namely `restoreDown` on every internal node from the last non-leaf
`floor((n - 2) / k)` down to the root.  For `n ≤ 1` there is no internal node. -/
def specHeapifySweep (n k : Nat) : List Nat :=
  if n ≤ 1 then [] else (List.range ((n - 2) / k + 1)).reverse

/-- Map a function over the payload (handle) component of every slot, keeping
priorities; `_restoreDown` and `_restoreUp` treat the payload as opaque data, which the
lemmas below exploit. -/
def mapSnd {α β : Type} (f : α → β) (hp : List (ℚ × α)) : List (ℚ × β) :=
  hp.map fun sl => (sl.1, f sl.2)

/-- The transformation `dequeue` performs on the list of logical (priority, payload)
slots: overwrite position 0 with the last slot, drop the last position, sift down from
the root. -/
def dequeueL {β : Type} (k : Nat) (L : List (ℚ × β)) : List (ℚ × β) :=
  match L.getLast? with
  | none => []
  | some last => (restoreDown k (L.length - 1) (L.set 0 last) 0).take (L.length - 1)

/-- State of a `PriorityQueue<T>` instance; the fields mirror the private fields of the
class.  `elemsUndef` is the value of the stray property `_elems[undefined]`, which the
source can write when an element-store index read as `undefined`. -/
structure PriorityQueue (T : Type) where
  heap : List (ℚ × Option Nat)
  k : Nat
  heap_size : Nat
  elems : List (Option T)
  elems_size : Nat
  exited_indexes : List (Option Nat)
  exited_indexes_count : Nat
  elemsUndef : Option T
  deriving DecidableEq

namespace PriorityQueue

variable {T : Type}

/-- Dereference an element-store index exactly as the source expressions
`this._elems[x]` do: an `undefined` index reads the stray property, an out-of-range
index reads `undefined`. -/
def elemAt (s : PriorityQueue T) : Option Nat → Option T
  | none => s.elemsUndef
  | some i => (s.elems[i]?).join

/-- The element-store index stored at heap position `i` (the odd cell `_heap[2*i+1]`). -/
def handleAt (s : PriorityQueue T) (i : Nat) : Option Nat :=
  (s.heap[i]?).bind Prod.snd

/-- The consecutive pair of writes `this._heap[p*2] = pri; this._heap[p*2+1] = h` as a
single slot update (appending, or padding with holes beyond the current end — the
padding case is not produced by any state with `heap_size ≤ heap.length`). -/
def heapWrite (hp : List (ℚ × Option Nat)) (p : Nat) (sl : ℚ × Option Nat) :
    List (ℚ × Option Nat) :=
  if p < hp.length then hp.set p sl
  else if p = hp.length then hp ++ [sl]
  else hp ++ List.replicate (p - hp.length) ((0 : ℚ), none) ++ [sl]

/-- The lone-cell write `this._heap[0] = priority`: the handle cell is untouched (and
stays `undefined` when the backing array was empty). -/
def setPri0 (hp : List (ℚ × Option Nat)) (p : ℚ) : List (ℚ × Option Nat) :=
  match hp with
  | [] => [(p, none)]
  | sl :: t => (p, sl.2) :: t

/-- The `count` accessor. -/
def count (s : PriorityQueue T) : Nat := s.heap_size

/-- The `unorderedItems` accessor: every element-store cell whose index is not among
the first `_exited_indexes_count` entries of `_exited_indexes`, in index order
(`forEach` skips holes). -/
def unorderedItems (s : PriorityQueue T) : List T :=
  let exitedSet := s.exited_indexes.take s.exited_indexes_count
  (List.range s.elems.length).filterMap fun i =>
    match s.elems[i]? with
    | some (some v) => if exitedSet.contains (some i) then none else some v
    | _ => none

/-- The class constructor `new PriorityQueue(range, k)`: load the pairs (element `i`
gets store index `i`), then run `_restoreDown` over `heapifySweep`. -/
def mkQueue (range : List (T × ℚ)) (k : Nat) : PriorityQueue T :=
  let n := range.length
  let hp0 : List (ℚ × Option Nat) := range.mapIdx fun i x => (x.2, some i)
  { heap := (heapifySweep n k).foldl (fun hp i => restoreDown k n hp i) hp0
    k := k
    heap_size := n
    elems := range.map fun x => some x.1
    elems_size := n
    exited_indexes := []
    exited_indexes_count := 0
    elemsUndef := none }

/-- The assignment `this._elems[index] = elem` (the index may be `undefined`). -/
def writeElem (s : PriorityQueue T) (idx : Option Nat) (e : T) : PriorityQueue T :=
  match idx with
  | none => { s with elemsUndef := some e }
  | some i => { s with elems := setPad s.elems i (some e) }

/-- `_addElem`: pop a recycled store index if the recycler is non-empty, otherwise grow
the element store; store the element there and return the index. -/
def addElem (s : PriorityQueue T) (e : T) : Option Nat × PriorityQueue T :=
  if 0 < s.exited_indexes_count then
    let c := s.exited_indexes_count - 1
    let idx := (s.exited_indexes[c]?).join
    (idx, writeElem { s with exited_indexes_count := c } idx e)
  else
    (some s.elems_size, writeElem { s with elems_size := s.elems_size + 1 } (some s.elems_size) e)

/-- `clear()`. -/
def clear (s : PriorityQueue T) : PriorityQueue T :=
  { heap := []
    k := s.k
    heap_size := 0
    elems := []
    elems_size := 0
    exited_indexes := []
    exited_indexes_count := 0
    elemsUndef := none }

/-- `shrink()`: rebuild `_heap` and `_elems` over the logical prefix in its existing
order, renumbering store indexes densely, and discard the recycler.  (The loop runs for
`i < heap_size`; on every state with `heap_size ≤ heap.length` — in particular every
reachable state — this is the prefix of length `heap_size` taken here.) -/
def shrink (s : PriorityQueue T) : PriorityQueue T :=
  let pre := s.heap.take s.heap_size
  { heap := pre.mapIdx fun i sl => (sl.1, some i)
    k := s.k
    heap_size := s.heap_size
    elems := pre.map fun sl => s.elemAt sl.2
    elems_size := s.heap_size
    exited_indexes := []
    exited_indexes_count := 0
    elemsUndef := none }

/-- `enqueue(elem, priority)`: store the element, append a slot at position
`_heap_size`, increment the size and sift the new slot up. -/
def enqueue (s : PriorityQueue T) (e : T) (p : ℚ) : PriorityQueue T :=
  let r := addElem s e
  let s1 := r.2
  let hp := heapWrite s1.heap s1.heap_size (p, r.1)
  { s1 with heap := restoreUp s1.k hp s1.heap_size, heap_size := s1.heap_size + 1 }

/-- The message carried by the `InvalidOperationException` raised on an empty queue. -/
def emptyMsg : String := "The queue is empty."

/-- `dequeue()`: either the empty-queue error (raised before any mutation), or the root
element together with the mutated state (size decremented, root index pushed on the
recycler, last slot moved to the root, sift-down). -/
def dequeue (s : PriorityQueue T) : Except String (Option T) × PriorityQueue T :=
  if s.heap_size = 0 then (Except.error emptyMsg, s)
  else
    let max := s.handleAt 0
    let n' := s.heap_size - 1
    let ex := setPad s.exited_indexes s.exited_indexes_count max
    let hp1 := match s.heap[n']? with
      | some sl => s.heap.set 0 sl
      | none => s.heap
    (Except.ok (s.elemAt max),
     { s with heap := restoreDown s.k n' hp1 0
              heap_size := n'
              exited_indexes := ex
              exited_indexes_count := s.exited_indexes_count + 1 })

/-- `peek()`. -/
def peek (s : PriorityQueue T) : Except String (Option T) × PriorityQueue T :=
  if s.heap_size = 0 then (Except.error emptyMsg, s)
  else (Except.ok (s.elemAt (s.handleAt 0)), s)

/-- `enqueueDequeue(elem, priority)`: no emptiness guard.  If
`priority <= this._heap[0]` (false when that cell is `undefined`) return `elem` with no
mutation; otherwise overwrite the root's priority and its element-store cell and sift
down, returning the previous root element.  The function is total: it never raises. -/
def enqueueDequeue (s : PriorityQueue T) (e : T) (p : ℚ) : Option T × PriorityQueue T :=
  if jsLe (some p) (priAt s.heap 0) then (some e, s)
  else
    let h := s.handleAt 0
    let result := s.elemAt h
    let s1 := writeElem { s with heap := setPri0 s.heap p } h e
    (result, { s1 with heap := restoreDown s1.k s1.heap_size s1.heap 0 })

/-- `dequeueEnqueue(elem, priority)`: empty-queue guard first, then unconditionally
replace the root's priority and element and sift down, returning the previous root
element. -/
def dequeueEnqueue (s : PriorityQueue T) (e : T) (p : ℚ) :
    Except String (Option T) × PriorityQueue T :=
  if s.heap_size = 0 then (Except.error emptyMsg, s)
  else
    let h := s.handleAt 0
    let result := s.elemAt h
    let s1 := writeElem { s with heap := setPri0 s.heap p } h e
    (Except.ok result, { s1 with heap := restoreDown s1.k s1.heap_size s1.heap 0 })

/-- The branch test `range.length < this._heap_size / Math.log2(this._heap_size)` of
`enqueueRange`, deciding for the one-at-a-time branch.  In JS: for `_heap_size = 0` the
right side is `-0` and the test is false; for `_heap_size = 1` it is `Infinity` and the
test is true; for `_heap_size ≥ 2` the real-number comparison
`len < hs / log2 hs` is equivalent to the exact integer comparison `hs ^ len < 2 ^ hs`
used here. -/
def takesIncremental (len hs : Nat) : Bool :=
  if hs = 0 then false
  else if hs = 1 then true
  else decide (hs ^ len < 2 ^ hs)

/-- One iteration of the bulk-load loop of `enqueueRange`: store the element, then
write its slot at heap position `hs0 + i` (the loop counter `i` rides along in the
accumulator; `hs0` is `this._heap_size`, which the loop never changes). -/
def rangeLoadStep (hs0 : Nat) (acc : PriorityQueue T × Nat) (x : T × ℚ) :
    PriorityQueue T × Nat :=
  ({ (addElem acc.1 x.1).2 with
      heap := heapWrite (addElem acc.1 x.1).2.heap (hs0 + acc.2) (x.2, (addElem acc.1 x.1).1) },
   acc.2 + 1)

/-- `enqueueRange(range)`.  The bulk branch loads the pairs at heap positions
`_heap_size + i`, then re-runs the heapify sweep computed from the *pre-insertion*
`_heap_size` — which it never updates. -/
def enqueueRange (s : PriorityQueue T) (range : List (T × ℚ)) : PriorityQueue T :=
  if takesIncremental range.length s.heap_size then
    range.foldl (fun t x => t.enqueue x.1 x.2) s
  else
    { (range.foldl (rangeLoadStep s.heap_size) (s, 0)).1 with
      heap := (heapifySweep s.heap_size s.k).foldl
        (fun hp i => restoreDown s.k s.heap_size hp i)
        (range.foldl (rangeLoadStep s.heap_size) (s, 0)).1.heap }

/-- The logical content of the heap: for each position of the logical prefix, its
priority paired with the element its slot refers to.  This is the abstraction through
which draining is observed. -/
def logical (s : PriorityQueue T) : List (ℚ × Option T) :=
  mapSnd s.elemAt (s.heap.take s.heap_size)

/-- Repeatedly dequeue while the queue is non-empty (as the test suites drain with
`while (queue.count != 0)`), collecting the returned elements; the fuel is the number
of dequeues still allowed. -/
def drainGo : Nat → PriorityQueue T → List (Option T)
  | 0, _ => []
  | fuel + 1, s =>
    if s.heap_size = 0 then []
    else
      (match (s.dequeue).1 with
       | Except.ok v => [v]
       | Except.error _ => []) ++ drainGo fuel (s.dequeue).2

/-- Drain the queue completely. -/
def drain (s : PriorityQueue T) : List (Option T) := drainGo s.heap_size s

/-- Two states that drain the same way: same branching factor, same logical size and
logical content, both with the logical prefix inside the backing array. -/
def DrainEquiv (s1 s2 : PriorityQueue T) : Prop :=
  s1.k = s2.k ∧ s1.heap_size = s2.heap_size ∧
    s1.heap_size ≤ s1.heap.length ∧ s2.heap_size ≤ s2.heap.length ∧
    logical s1 = logical s2

/-- Decidable form of the claimed min-heap invariant: for every non-root position
`i < heap_size`, the priority at the parent position `(i-1)/k` is `≤` the priority at
`i`. -/
def heapOK (s : PriorityQueue T) : Bool :=
  (List.range s.heap_size).all fun i =>
    if i = 0 then true
    else
      match priAt s.heap ((i - 1) / s.k), priAt s.heap i with
      | some pp, some pi => decide (pp ≤ pi)
      | _, _ => false

/-- States reachable through the public interface, starting from any constructor
call. -/
inductive Reachable : PriorityQueue T → Prop
  | mkQueue (range : List (T × ℚ)) (k : Nat) : Reachable (mkQueue range k)
  | enqueue {s : PriorityQueue T} (e : T) (p : ℚ) :
      Reachable s → Reachable (s.enqueue e p)
  | dequeue {s : PriorityQueue T} : Reachable s → Reachable (s.dequeue).2
  | peek {s : PriorityQueue T} : Reachable s → Reachable (s.peek).2
  | enqueueDequeue {s : PriorityQueue T} (e : T) (p : ℚ) :
      Reachable s → Reachable (s.enqueueDequeue e p).2
  | dequeueEnqueue {s : PriorityQueue T} (e : T) (p : ℚ) :
      Reachable s → Reachable (s.dequeueEnqueue e p).2
  | enqueueRange {s : PriorityQueue T} (range : List (T × ℚ)) :
      Reachable s → Reachable (s.enqueueRange range)
  | clear {s : PriorityQueue T} : Reachable s → Reachable s.clear
  | shrink {s : PriorityQueue T} : Reachable s → Reachable s.shrink

end PriorityQueue

/-! ### Lemmas about the heap-maintenance primitives

`_restoreDown` and `_restoreUp` read only priority cells and swap whole slots, so they
commute with mapping over slot payloads and are insensitive to data beyond the logical
prefix; these lemmas make that precise. -/

theorem getElem?_mapIdx {α β : Type} (l : List α) (f : Nat → α → β) (i : Nat) :
    (l.mapIdx f)[i]? = (l[i]?).map (f i) := by
  simp only [List.mapIdx_eq_enum_map, List.getElem?_map, List.getElem?_enum]
  cases l[i]? <;> rfl

theorem swapSlots_length {β : Type} (hp : List β) (i j : Nat) :
    (swapSlots hp i j).length = hp.length := by
  unfold swapSlots
  split
  · simp
  · rfl

theorem restoreDownGo_length {α : Type} (k size fuel : Nat) :
    ∀ (hp : List (ℚ × α)) (index : Nat),
      (restoreDownGo k size fuel hp index).length = hp.length := by
  induction fuel with
  | zero => intro hp index; rfl
  | succ fuel ih =>
    intro hp index
    unfold restoreDownGo
    split
    · rfl
    · rw [ih]
      split
      · exact swapSlots_length ..
      · rfl

theorem restoreDown_length {α : Type} (k size : Nat) (hp : List (ℚ × α)) (index : Nat) :
    (restoreDown k size hp index).length = hp.length :=
  restoreDownGo_length ..

theorem restoreUpGo_length {α : Type} (k fuel : Nat) :
    ∀ (hp : List (ℚ × α)) (index : Nat),
      (restoreUpGo k fuel hp index).length = hp.length := by
  induction fuel with
  | zero => intro hp index; rfl
  | succ fuel ih =>
    intro hp index
    unfold restoreUpGo
    split
    · rfl
    · split
      · rw [ih, swapSlots_length]
      · rfl

theorem restoreUp_length {α : Type} (k : Nat) (hp : List (ℚ × α)) (index : Nat) :
    (restoreUp k hp index).length = hp.length := by
  unfold restoreUp
  split
  · rfl
  · exact restoreUpGo_length ..

theorem priAt_mapSnd {α β : Type} (f : α → β) (hp : List (ℚ × α)) (i : Nat) :
    priAt (mapSnd f hp) i = priAt hp i := by
  unfold priAt mapSnd
  rw [List.getElem?_map]
  cases hp[i]? <;> rfl

theorem swapSlots_mapSnd {α β : Type} (f : α → β) (hp : List (ℚ × α)) (i j : Nat) :
    swapSlots (mapSnd f hp) i j = mapSnd f (swapSlots hp i j) := by
  unfold swapSlots mapSnd
  rw [List.getElem?_map, List.getElem?_map]
  cases h1 : hp[i]? <;> cases h2 : hp[j]? <;>
    simp [List.map_set]

theorem scanStep_mapSnd {α β : Type} (f : α → β) (k size : Nat) (hp : List (ℚ × α))
    (index : Nat) : scanStep k size (mapSnd f hp) index = scanStep k size hp index := by
  funext acc j
  unfold scanStep
  rw [priAt_mapSnd]

theorem scanMin_mapSnd {α β : Type} (f : α → β) (k size : Nat) (hp : List (ℚ × α))
    (index : Nat) : scanMin k size (mapSnd f hp) index = scanMin k size hp index := by
  unfold scanMin
  rw [scanStep_mapSnd]

theorem restoreDownGo_mapSnd {α β : Type} (f : α → β) (k size fuel : Nat) :
    ∀ (hp : List (ℚ × α)) (index : Nat),
      restoreDownGo k size fuel (mapSnd f hp) index
        = mapSnd f (restoreDownGo k size fuel hp index) := by
  induction fuel with
  | zero => intro hp index; rfl
  | succ fuel ih =>
    intro hp index
    unfold restoreDownGo
    rw [scanMin_mapSnd]
    split
    · rfl
    · rw [priAt_mapSnd, priAt_mapSnd]
      split
      · rw [swapSlots_mapSnd, ih]
      · rw [ih]

theorem restoreDown_mapSnd {α β : Type} (f : α → β) (k size : Nat) (hp : List (ℚ × α))
    (index : Nat) :
    restoreDown k size (mapSnd f hp) index = mapSnd f (restoreDown k size hp index) :=
  restoreDownGo_mapSnd ..

theorem priAt_take {α : Type} (hp : List (ℚ × α)) (m i : Nat) (h : i < m) :
    priAt (hp.take m) i = priAt hp i := by
  unfold priAt
  rw [List.getElem?_take, if_pos h]

theorem swapSlots_take {β : Type} (hp : List β) (m i j : Nat) (hi : i < m) (hj : j < m) :
    swapSlots (hp.take m) i j = (swapSlots hp i j).take m := by
  unfold swapSlots
  rw [List.getElem?_take, if_pos hi, List.getElem?_take, if_pos hj]
  cases h1 : hp[i]? <;> cases h2 : hp[j]? <;>
    simp [List.set_take]

theorem scanStep_take {α : Type} (k size m : Nat) (hsm : size ≤ m) (hp : List (ℚ × α))
    (index : Nat) : scanStep k size (hp.take m) index = scanStep k size hp index := by
  funext acc j
  unfold scanStep
  by_cases hc : k * index + (j + 1) < size
  · rw [if_pos hc, if_pos hc, priAt_take hp m _ (lt_of_lt_of_le hc hsm)]
  · rw [if_neg hc, if_neg hc]

theorem scanMin_take {α : Type} (k size m : Nat) (hsm : size ≤ m) (hp : List (ℚ × α))
    (index : Nat) : scanMin k size (hp.take m) index = scanMin k size hp index := by
  unfold scanMin
  rw [scanStep_take k size m hsm]

theorem scanStep_snd_lt {α : Type} (k size : Nat) (hp : List (ℚ × α)) (index : Nat)
    (acc : ℚ × Nat) (j : Nat) (h : acc.1 ≠ MSI → acc.2 < size) :
    (scanStep k size hp index acc j).1 ≠ MSI → (scanStep k size hp index acc j).2 < size := by
  unfold scanStep
  by_cases hc : k * index + (j + 1) < size
  · rw [if_pos hc]
    cases priAt hp (k * index + (j + 1)) with
    | none => exact h
    | some p =>
      dsimp only
      by_cases hlt : p < acc.1
      · rw [if_pos hlt]; intro _; exact hc
      · rw [if_neg hlt]; exact h
  · rw [if_neg hc]; exact h

theorem scanMin_snd_lt {α : Type} (k size : Nat) (hp : List (ℚ × α)) (index : Nat)
    (h : (scanMin k size hp index).1 ≠ MSI) : (scanMin k size hp index).2 < size := by
  unfold scanMin at *
  revert h
  have main : ∀ (l : List Nat) (acc : ℚ × Nat), (acc.1 ≠ MSI → acc.2 < size) →
      ((l.foldl (scanStep k size hp index) acc).1 ≠ MSI →
        (l.foldl (scanStep k size hp index) acc).2 < size) := by
    intro l
    induction l with
    | nil => intro acc h; exact h
    | cons x xs ih => intro acc h; exact ih _ (scanStep_snd_lt k size hp index acc x h)
  exact main (List.range k) (MSI, 0) (fun habs => absurd rfl habs)

theorem restoreDownGo_take {α : Type} (k size m : Nat) (hsm : size ≤ m) (fuel : Nat) :
    ∀ (hp : List (ℚ × α)) (index : Nat), index < size →
      restoreDownGo k size fuel (hp.take m) index
        = (restoreDownGo k size fuel hp index).take m := by
  induction fuel with
  | zero => intro hp index _; rfl
  | succ fuel ih =>
    intro hp index hidx
    unfold restoreDownGo
    rw [scanMin_take k size m hsm]
    split
    · rfl
    case isFalse hMSI =>
      have hlt : (scanMin k size hp index).2 < size := scanMin_snd_lt k size hp index hMSI
      rw [priAt_take hp m index (lt_of_lt_of_le hidx hsm),
        priAt_take hp m _ (lt_of_lt_of_le hlt hsm)]
      split
      · rw [swapSlots_take hp m index _ (lt_of_lt_of_le hidx hsm) (lt_of_lt_of_le hlt hsm),
          ih _ _ hlt]
      · rw [ih _ _ hlt]

theorem restoreDown_take {α : Type} (k size m : Nat) (hsm : size ≤ m)
    (hp : List (ℚ × α)) (index : Nat) (hidx : index < size) :
    restoreDown k size (hp.take m) index = (restoreDown k size hp index).take m :=
  restoreDownGo_take k size m hsm _ hp index hidx

theorem scanMin_size_zero {α : Type} (k : Nat) (hp : List (ℚ × α)) (index : Nat) :
    scanMin k 0 hp index = (MSI, 0) := by
  unfold scanMin
  have main : ∀ (l : List Nat) (acc : ℚ × Nat),
      l.foldl (scanStep k 0 hp index) acc = acc := by
    intro l
    induction l with
    | nil => intro acc; rfl
    | cons x xs ih =>
      intro acc
      have hstep : scanStep k 0 hp index acc x = acc := by
        unfold scanStep
        rw [if_neg (Nat.not_lt_zero _)]
      rw [List.foldl_cons, hstep, ih]
  exact main _ _

theorem restoreDownGo_size_zero {α : Type} (k fuel : Nat) (hp : List (ℚ × α))
    (index : Nat) : restoreDownGo k 0 fuel hp index = hp := by
  cases fuel with
  | zero => rfl
  | succ fuel =>
    unfold restoreDownGo
    rw [scanMin_size_zero]
    simp

theorem restoreDown_size_zero {α : Type} (k : Nat) (hp : List (ℚ × α)) (index : Nat) :
    restoreDown k 0 hp index = hp :=
  restoreDownGo_size_zero ..

/-! ### Fuel adequacy

The source's `while (true)` loop in `_restoreDown` walks a strictly increasing index
below `size`, and the `while (parent >= 0)` loop in `_restoreUp` walks a strictly
decreasing index; the following lemmas show the fuel supplied by `restoreDown` and
`restoreUp` is always enough, i.e. the fuel-indexed functions compute the loops'
limits. -/

theorem foldl_fixed_of_mem {γ δ : Type} (f : γ → δ → γ) :
    ∀ (l : List δ), (∀ (acc : γ) (j : δ), j ∈ l → f acc j = acc) →
      ∀ (acc : γ), l.foldl f acc = acc := by
  intro l
  induction l with
  | nil => intro _ acc; rfl
  | cons x xs ih =>
    intro h acc
    rw [List.foldl_cons, h acc x (List.mem_cons_self ..)]
    exact ih (fun acc j hj => h acc j (List.mem_cons_of_mem x hj)) acc

theorem scanMin_stop {α : Type} (k size : Nat) (hp : List (ℚ × α)) (index : Nat)
    (h : size ≤ index) : scanMin k size hp index = (MSI, 0) := by
  unfold scanMin
  apply foldl_fixed_of_mem
  intro acc j hj
  have hk : 1 ≤ k := Nat.one_le_iff_ne_zero.mpr (by
    intro hk0
    rw [hk0] at hj
    exact absurd hj (by simp))
  unfold scanStep
  rw [if_neg]
  have : index + 1 ≤ k * index + (j + 1) := by nlinarith [Nat.le_mul_of_pos_left index hk]
  omega

theorem scanMin_snd_gt {α : Type} (k size : Nat) (hp : List (ℚ × α)) (index : Nat)
    (h : (scanMin k size hp index).1 ≠ MSI) : index < (scanMin k size hp index).2 := by
  rcases Nat.eq_zero_or_pos k with hk0 | hk1
  · subst hk0
    unfold scanMin at h
    exact absurd rfl h
  have hmul : index ≤ k * index := Nat.le_mul_of_pos_left index hk1
  unfold scanMin at *
  revert h
  have main : ∀ (l : List Nat) (acc : ℚ × Nat), (acc.1 ≠ MSI → index < acc.2) →
      ((l.foldl (scanStep k size hp index) acc).1 ≠ MSI →
        index < (l.foldl (scanStep k size hp index) acc).2) := by
    intro l
    induction l with
    | nil => intro acc h; exact h
    | cons x xs ih =>
      intro acc h
      refine ih _ ?_
      unfold scanStep
      by_cases hc : k * index + (x + 1) < size
      · rw [if_pos hc]
        cases priAt hp (k * index + (x + 1)) with
        | none => exact h
        | some p =>
          dsimp only
          by_cases hlt : p < acc.1
          · rw [if_pos hlt]
            intro _
            omega
          · rw [if_neg hlt]; exact h
      · rw [if_neg hc]; exact h
  exact main (List.range k) (MSI, 0) (fun habs => absurd rfl habs)

theorem restoreDownGo_fuel_eq {α : Type} (k size : Nat) :
    ∀ (f1 f2 : Nat) (hp : List (ℚ × α)) (index : Nat),
      size ≤ index + f1 → size ≤ index + f2 →
      restoreDownGo k size f1 hp index = restoreDownGo k size f2 hp index := by
  intro f1
  induction f1 with
  | zero =>
    intro f2 hp index h1 _
    cases f2 with
    | zero => rfl
    | succ b =>
      show hp = restoreDownGo k size (b + 1) hp index
      unfold restoreDownGo
      rw [scanMin_stop k size hp index (by omega)]
      simp
  | succ a ih =>
    intro f2 hp index h1 h2
    cases f2 with
    | zero =>
      show restoreDownGo k size (a + 1) hp index = hp
      unfold restoreDownGo
      rw [scanMin_stop k size hp index (by omega)]
      simp
    | succ b =>
      unfold restoreDownGo
      split
      · rfl
      case isFalse hMSI =>
        have hgt : index < (scanMin k size hp index).2 :=
          scanMin_snd_gt k size hp index hMSI
        have hlt : (scanMin k size hp index).2 < size :=
          scanMin_snd_lt k size hp index hMSI
        exact ih b _ _ (by omega) (by omega)

/-- Any fuel of at least `size - index` computes `_restoreDown`'s limit. -/
theorem restoreDownGo_eq_restoreDown {α : Type} (k size fuel : Nat)
    (hp : List (ℚ × α)) (index : Nat) (h : size ≤ index + fuel) :
    restoreDownGo k size fuel hp index = restoreDown k size hp index :=
  restoreDownGo_fuel_eq k size fuel (size + 1) hp index h (by omega)

theorem restoreUpGo_fuel_eq {α : Type} (k : Nat) :
    ∀ (f1 f2 : Nat) (hp : List (ℚ × α)) (index : Nat),
      index < f1 → index < f2 →
      restoreUpGo k f1 hp index = restoreUpGo k f2 hp index := by
  intro f1
  induction f1 with
  | zero => intro f2 hp index h1 _; omega
  | succ a ih =>
    intro f2 hp index h1 h2
    cases f2 with
    | zero => omega
    | succ b =>
      unfold restoreUpGo
      split
      · rfl
      case isFalse h0 =>
        split
        · have hpar : (index - 1) / k < index :=
            Nat.lt_of_le_of_lt (Nat.div_le_self ..) (by omega)
          exact ih b _ _ (by omega) (by omega)
        · rfl

/-- Any fuel above `index` computes `_restoreUp`'s limit. -/
theorem restoreUpGo_eq_restoreUp {α : Type} (k fuel : Nat) (hp : List (ℚ × α))
    (index : Nat) (hk : k ≠ 0) (h : index < fuel) :
    restoreUpGo k fuel hp index = restoreUp k hp index := by
  unfold restoreUp
  rw [if_neg hk]
  exact restoreUpGo_fuel_eq k fuel (index + 1) hp index h (by omega)

theorem foldl_restoreDown_length {α : Type} (k n : Nat) :
    ∀ (l : List Nat) (hp : List (ℚ × α)),
      (l.foldl (fun hp i => restoreDown k n hp i) hp).length = hp.length := by
  intro l
  induction l with
  | nil => intro hp; rfl
  | cons x xs ih => intro hp; rw [List.foldl_cons, ih, restoreDown_length]

namespace PriorityQueue

variable {T : Type}

/-! ### Field-preservation and well-formedness lemmas for the operations

The key well-formedness fact is the *span* property `heap_size ≤ heap.length`: the
logical prefix lies inside the backing array.  Every reachable state has it
(`reachable_span`). -/

theorem writeElem_heap (s : PriorityQueue T) (idx : Option Nat) (e : T) :
    (writeElem s idx e).heap = s.heap := by cases idx <;> rfl

theorem writeElem_heap_size (s : PriorityQueue T) (idx : Option Nat) (e : T) :
    (writeElem s idx e).heap_size = s.heap_size := by cases idx <;> rfl

theorem writeElem_k (s : PriorityQueue T) (idx : Option Nat) (e : T) :
    (writeElem s idx e).k = s.k := by cases idx <;> rfl

theorem addElem_heap (s : PriorityQueue T) (e : T) :
    ((addElem s e).2).heap = s.heap := by
  unfold addElem
  split <;> rw [writeElem_heap]

theorem addElem_heap_size (s : PriorityQueue T) (e : T) :
    ((addElem s e).2).heap_size = s.heap_size := by
  unfold addElem
  split <;> rw [writeElem_heap_size]

theorem addElem_k (s : PriorityQueue T) (e : T) :
    ((addElem s e).2).k = s.k := by
  unfold addElem
  split <;> rw [writeElem_k]

theorem heapWrite_length_ge (hp : List (ℚ × Option Nat)) (p : Nat) (sl : ℚ × Option Nat) :
    p + 1 ≤ (heapWrite hp p sl).length ∧ hp.length ≤ (heapWrite hp p sl).length := by
  unfold heapWrite
  split
  · simp only [List.length_set]
    omega
  · split
    · simp only [List.length_append, List.length_cons, List.length_nil]
      omega
    · simp only [List.length_append, List.length_replicate, List.length_cons,
        List.length_nil]
      omega

theorem setPri0_length_ge (hp : List (ℚ × Option Nat)) (p : ℚ) :
    hp.length ≤ (setPri0 hp p).length := by
  cases hp <;> simp [setPri0]

theorem mkQueue_span (range : List (T × ℚ)) (k : Nat) :
    (mkQueue range k).heap_size ≤ (mkQueue range k).heap.length := by
  unfold mkQueue
  dsimp only
  rw [foldl_restoreDown_length]
  simp

theorem enqueue_span (s : PriorityQueue T) (e : T) (p : ℚ) :
    (s.enqueue e p).heap_size ≤ (s.enqueue e p).heap.length := by
  unfold enqueue
  dsimp only
  rw [restoreUp_length]
  exact (heapWrite_length_ge ..).1

/-- A single `enqueue` does increase `count` by one; the count law fails only through
the bulk branch of `enqueueRange`. -/
theorem enqueue_count (s : PriorityQueue T) (e : T) (p : ℚ) :
    (s.enqueue e p).count = s.count + 1 := by
  unfold enqueue count
  dsimp only
  rw [addElem_heap_size]

theorem dequeue_snd_k (s : PriorityQueue T) : ((s.dequeue).2).k = s.k := by
  unfold dequeue
  split <;> rfl

theorem dequeue_snd_size (s : PriorityQueue T) :
    ((s.dequeue).2).heap_size = s.heap_size - 1 := by
  unfold dequeue
  split
  case isTrue h => dsimp only; omega
  case isFalse h => rfl

theorem dequeue_snd_heap_length (s : PriorityQueue T) :
    ((s.dequeue).2).heap.length = s.heap.length := by
  unfold dequeue
  split
  · rfl
  · dsimp only
    rw [restoreDown_length]
    split
    · exact List.length_set ..
    · rfl

theorem dequeue_snd_elems (s : PriorityQueue T) : ((s.dequeue).2).elems = s.elems := by
  unfold dequeue
  split <;> rfl

theorem dequeue_snd_elemsUndef (s : PriorityQueue T) :
    ((s.dequeue).2).elemsUndef = s.elemsUndef := by
  unfold dequeue
  split <;> rfl

theorem dequeue_span (s : PriorityQueue T) (hsp : s.heap_size ≤ s.heap.length) :
    ((s.dequeue).2).heap_size ≤ ((s.dequeue).2).heap.length := by
  rw [dequeue_snd_size, dequeue_snd_heap_length]
  omega

theorem peek_snd (s : PriorityQueue T) : (s.peek).2 = s := by
  unfold peek
  split <;> rfl

theorem enqueueDequeue_span (s : PriorityQueue T) (e : T) (p : ℚ)
    (hsp : s.heap_size ≤ s.heap.length) :
    ((s.enqueueDequeue e p).2).heap_size ≤ ((s.enqueueDequeue e p).2).heap.length := by
  unfold enqueueDequeue
  split
  · exact hsp
  · dsimp only
    rw [restoreDown_length, writeElem_heap_size, writeElem_heap]
    calc s.heap_size ≤ s.heap.length := hsp
    _ ≤ (setPri0 s.heap p).length := setPri0_length_ge ..

theorem dequeueEnqueue_span (s : PriorityQueue T) (e : T) (p : ℚ)
    (hsp : s.heap_size ≤ s.heap.length) :
    ((s.dequeueEnqueue e p).2).heap_size ≤ ((s.dequeueEnqueue e p).2).heap.length := by
  unfold dequeueEnqueue
  split
  · exact hsp
  · dsimp only
    rw [restoreDown_length, writeElem_heap_size, writeElem_heap]
    calc s.heap_size ≤ s.heap.length := hsp
    _ ≤ (setPri0 s.heap p).length := setPri0_length_ge ..

theorem foldl_enqueue_span (l : List (T × ℚ)) :
    ∀ (s : PriorityQueue T), s.heap_size ≤ s.heap.length →
      (l.foldl (fun t x => t.enqueue x.1 x.2) s).heap_size
        ≤ (l.foldl (fun t x => t.enqueue x.1 x.2) s).heap.length := by
  induction l with
  | nil => intro s h; exact h
  | cons x xs ih =>
    intro s h
    rw [List.foldl_cons]
    exact ih _ (enqueue_span ..)

theorem rangeLoad_invariant (hs0 : Nat) (l : List (T × ℚ)) :
    ∀ (acc : PriorityQueue T × Nat),
      (l.foldl (rangeLoadStep hs0) acc).1.heap_size = acc.1.heap_size ∧
        acc.1.heap.length ≤ (l.foldl (rangeLoadStep hs0) acc).1.heap.length := by
  induction l with
  | nil => intro acc; exact ⟨rfl, Nat.le_refl _⟩
  | cons x xs ih =>
    intro acc
    rw [List.foldl_cons]
    refine ⟨?_, ?_⟩
    · rw [(ih _).1]
      show ((addElem acc.1 x.1).2).heap_size = acc.1.heap_size
      exact addElem_heap_size ..
    · calc acc.1.heap.length
          = ((addElem acc.1 x.1).2).heap.length := by rw [addElem_heap]
      _ ≤ (rangeLoadStep hs0 acc x).1.heap.length := (heapWrite_length_ge ..).2
      _ ≤ _ := (ih _).2

theorem enqueueRange_span (s : PriorityQueue T) (range : List (T × ℚ))
    (hsp : s.heap_size ≤ s.heap.length) :
    (s.enqueueRange range).heap_size ≤ (s.enqueueRange range).heap.length := by
  unfold enqueueRange
  split
  · exact foldl_enqueue_span range s hsp
  · dsimp only
    rw [foldl_restoreDown_length, (rangeLoad_invariant s.heap_size range (s, 0)).1]
    calc s.heap_size ≤ s.heap.length := hsp
    _ ≤ _ := (rangeLoad_invariant s.heap_size range (s, 0)).2

theorem clear_span (s : PriorityQueue T) : (s.clear).heap_size ≤ (s.clear).heap.length :=
  Nat.le_refl 0

theorem shrink_k (s : PriorityQueue T) : (s.shrink).k = s.k := rfl

theorem shrink_size (s : PriorityQueue T) : (s.shrink).heap_size = s.heap_size := rfl

theorem shrink_heap_length (s : PriorityQueue T) (hsp : s.heap_size ≤ s.heap.length) :
    (s.shrink).heap.length = s.heap_size := by
  unfold shrink
  dsimp only
  simp only [List.length_mapIdx, List.length_take]
  omega

theorem shrink_span (s : PriorityQueue T) (hsp : s.heap_size ≤ s.heap.length) :
    (s.shrink).heap_size ≤ (s.shrink).heap.length := by
  rw [shrink_size, shrink_heap_length s hsp]

/-! ### Dequeue and shrink through the `logical` abstraction -/

theorem mapSnd_take {α β : Type} (f : α → β) (l : List (ℚ × α)) (m : Nat) :
    mapSnd f (l.take m) = (mapSnd f l).take m := by
  unfold mapSnd
  rw [List.map_take]

theorem mapSnd_set {α β : Type} (f : α → β) (l : List (ℚ × α)) (i : Nat) (sl : ℚ × α) :
    mapSnd f (l.set i sl) = (mapSnd f l).set i (sl.1, f sl.2) := by
  unfold mapSnd
  rw [List.map_set]

theorem elemAt_eq_of (s1 s2 : PriorityQueue T) (he : s1.elems = s2.elems)
    (hu : s1.elemsUndef = s2.elemsUndef) : s1.elemAt = s2.elemAt := by
  funext i
  cases i <;> simp [elemAt, he, hu]

theorem logical_length (s : PriorityQueue T) (hsp : s.heap_size ≤ s.heap.length) :
    (logical s).length = s.heap_size := by
  unfold logical mapSnd
  rw [List.length_map, List.length_take]
  omega

theorem logical_getElem? (s : PriorityQueue T) (i : Nat) :
    (logical s)[i]?
      = ((s.heap.take s.heap_size)[i]?).map fun sl => (sl.1, s.elemAt sl.2) := by
  unfold logical mapSnd
  rw [List.getElem?_map]

theorem logical_dequeue (s : PriorityQueue T) (h0 : s.heap_size ≠ 0)
    (hsp : s.heap_size ≤ s.heap.length) :
    logical (s.dequeue).2 = dequeueL s.k (logical s) := by
  obtain ⟨sl, hsl⟩ : ∃ sl, s.heap[s.heap_size - 1]? = some sl :=
    ⟨_, List.getElem?_eq_getElem (by omega)⟩
  have hLlen : (logical s).length = s.heap_size := logical_length s hsp
  have hLlast : (logical s).getLast? = some (sl.1, s.elemAt sl.2) := by
    rw [List.getLast?_eq_getElem?, hLlen, logical_getElem?, List.getElem?_take,
      if_pos (by omega : s.heap_size - 1 < s.heap_size), hsl]
    rfl
  have hstate : logical (s.dequeue).2
      = mapSnd s.elemAt
          ((restoreDown s.k (s.heap_size - 1) (s.heap.set 0 sl) 0).take
            (s.heap_size - 1)) := by
    unfold dequeue
    rw [if_neg h0]
    dsimp only
    rw [hsl]
    rfl
  rw [hstate]
  unfold dequeueL
  rw [hLlast]
  rw [hLlen]
  rcases Nat.lt_or_ge 1 s.heap_size with h2 | h1
  · -- at least two logical slots: push `take` and `mapSnd` through `restoreDown`
    have hpos : 0 < s.heap_size - 1 := by omega
    have step1 : (restoreDown s.k (s.heap_size - 1) (s.heap.set 0 sl) 0).take
          (s.heap_size - 1)
        = ((restoreDown s.k (s.heap_size - 1) (s.heap.set 0 sl) 0).take
            s.heap_size).take (s.heap_size - 1) := by
      rw [List.take_take]
      congr 1
      omega
    rw [step1,
      ← restoreDown_take s.k (s.heap_size - 1) s.heap_size (by omega) _ 0 hpos,
      List.set_take, mapSnd_take, ← restoreDown_mapSnd, mapSnd_set]
    rfl
  · -- a single logical slot: both sides are empty
    have hn1 : s.heap_size = 1 := by omega
    rw [hn1]
    dsimp only
    rw [restoreDown_size_zero, restoreDown_size_zero, List.take_zero, List.take_zero]
    rfl

theorem dequeue_fst (s : PriorityQueue T) (h0 : s.heap_size ≠ 0)
    (hsp : s.heap_size ≤ s.heap.length) :
    (s.dequeue).1 = Except.ok ((((logical s)[0]?).map Prod.snd).join) := by
  obtain ⟨sl0, hsl0⟩ : ∃ sl, s.heap[0]? = some sl :=
    ⟨_, List.getElem?_eq_getElem (by omega)⟩
  unfold dequeue
  rw [if_neg h0]
  dsimp only
  rw [logical_getElem?, List.getElem?_take, if_pos (by omega : 0 < s.heap_size), hsl0]
  unfold handleAt
  rw [hsl0]
  rfl

theorem drainEquiv_dequeue {s1 s2 : PriorityQueue T} (h : DrainEquiv s1 s2)
    (h0 : s1.heap_size ≠ 0) :
    (s1.dequeue).1 = (s2.dequeue).1 ∧ DrainEquiv (s1.dequeue).2 (s2.dequeue).2 := by
  obtain ⟨hk, hn, hsp1, hsp2, hlog⟩ := h
  have h0' : s2.heap_size ≠ 0 := by omega
  refine ⟨?_, ?_, ?_, ?_, ?_, ?_⟩
  · rw [dequeue_fst s1 h0 hsp1, dequeue_fst s2 h0' hsp2, hlog]
  · rw [dequeue_snd_k, dequeue_snd_k, hk]
  · rw [dequeue_snd_size, dequeue_snd_size, hn]
  · rw [dequeue_snd_size, dequeue_snd_heap_length]
    omega
  · rw [dequeue_snd_size, dequeue_snd_heap_length]
    omega
  · rw [logical_dequeue s1 h0 hsp1, logical_dequeue s2 h0' hsp2, hlog, hk]

theorem drainGo_congr :
    ∀ (fuel : Nat) {s1 s2 : PriorityQueue T}, DrainEquiv s1 s2 →
      drainGo fuel s1 = drainGo fuel s2 := by
  intro fuel
  induction fuel with
  | zero => intro s1 s2 _; rfl
  | succ fuel ih =>
    intro s1 s2 h
    have hn : s1.heap_size = s2.heap_size := h.2.1
    unfold drainGo
    by_cases h0 : s1.heap_size = 0
    · rw [if_pos h0, if_pos (by omega : s2.heap_size = 0)]
    · have hd := drainEquiv_dequeue h h0
      rw [if_neg h0, if_neg (by omega : ¬s2.heap_size = 0), hd.1, ih hd.2]

theorem logical_shrink (s : PriorityQueue T) (hsp : s.heap_size ≤ s.heap.length) :
    logical s.shrink = logical s := by
  apply List.ext_getElem?
  intro i
  rw [logical_getElem?, logical_getElem?]
  rw [List.getElem?_take, List.getElem?_take, shrink_size]
  by_cases hi : i < s.heap_size
  · rw [if_pos hi, if_pos hi]
    obtain ⟨sl, hsl⟩ : ∃ sl, s.heap[i]? = some sl :=
      ⟨_, List.getElem?_eq_getElem (by omega)⟩
    have hpre : (s.heap.take s.heap_size)[i]? = some sl := by
      rw [List.getElem?_take, if_pos hi, hsl]
    show ((s.shrink).heap[i]?).map _ = _
    unfold shrink
    dsimp only
    rw [getElem?_mapIdx, hpre, hsl]
    dsimp only [Option.map]
    congr 2
    show (((s.heap.take s.heap_size).map fun sl => s.elemAt sl.2)[i]?).join = _
    rw [List.getElem?_map, hpre]
    rfl
  · rw [if_neg hi, if_neg hi]
    rfl

/-- Main simulation: a shrunken state drains exactly as the original. -/
theorem drainEquiv_shrink (s : PriorityQueue T) (hsp : s.heap_size ≤ s.heap.length) :
    DrainEquiv s.shrink s :=
  ⟨shrink_k s, shrink_size s, shrink_span s hsp, hsp, logical_shrink s hsp⟩

theorem reachable_span {s : PriorityQueue T} (h : Reachable s) :
    s.heap_size ≤ s.heap.length := by
  induction h with
  | mkQueue range k => exact mkQueue_span range k
  | enqueue e p _ _ => exact enqueue_span ..
  | dequeue _ ih => exact dequeue_span _ ih
  | peek _ ih => rw [peek_snd]; exact ih
  | enqueueDequeue e p _ ih => exact enqueueDequeue_span _ e p ih
  | dequeueEnqueue e p _ ih => exact dequeueEnqueue_span _ e p ih
  | enqueueRange range _ ih => exact enqueueRange_span _ range ih
  | clear _ _ => exact clear_span ..
  | shrink _ ih => exact shrink_span _ ih

/-! ### The claims -/

/-- C1: the claim states that building the queue from any pairs (bulk or repeated
`enqueue`) and draining returns the elements sorted by priority ascending.  The code
violates it: bulk construction from priorities `2^53` and `2^53 - 1`
(`Number.MAX_SAFE_INTEGER`, both exactly representable doubles) drains as element `0`
then element `1`, priority order `2^53, 2^53 - 1` — not non-decreasing; the sort would
give `[1, 0]`.  `_restoreDown` skipped the root's child because the child's priority is
not strictly below the `MAX_SAFE_INTEGER` leaf sentinel. -/
theorem C1_drain_unsorted_at_max_safe_integer :
    drain (mkQueue [((0 : Nat), (9007199254740992 : ℚ)), (1, 9007199254740991)] 4)
        = [some 0, some 1] ∧
      ([some 0, some 1] : List (Option Nat)) ≠ [some 1, some 0] :=
  ⟨by decide, by decide⟩

/-- C2: the claim states that `enqueueRange(pairs)` always increases `count` by
`pairs.length`.  The code violates it: on a fresh empty queue the bulk branch is taken
(`range.length < 0 / log2(0)` is false) and that branch never updates `_heap_size`, so
after `enqueueRange([(0, 1)])` the count is still `0`, not `0 + 1`. -/
theorem C2_enqueueRange_bulk_loses_count :
    ((mkQueue ([] : List (Nat × ℚ)) 4).enqueueRange [(0, 1)]).count = 0 ∧
      ((mkQueue ([] : List (Nat × ℚ)) 4).enqueueRange [(0, 1)]).count
        ≠ (mkQueue ([] : List (Nat × ℚ)) 4).count + 1 :=
  ⟨by decide, by decide⟩

/-- C3: the claim states that `unorderedItems` always equals (as a multiset) the
currently-enqueued elements.  The code violates it: after `enqueueRange([(0, 1)])` on a
fresh empty queue, `unorderedItems` reports `[0]` although the queue is logically empty
— `count` is `0` and `dequeue` raises, so no element is currently enqueued (live). -/
theorem C3_unorderedItems_ghost_element :
    ((mkQueue ([] : List (Nat × ℚ)) 4).enqueueRange [(0, 1)]).unorderedItems = [0] ∧
      ((mkQueue ([] : List (Nat × ℚ)) 4).enqueueRange [(0, 1)]).count = 0 ∧
      ((((mkQueue ([] : List (Nat × ℚ)) 4).enqueueRange [(0, 1)]).dequeue).1
        = Except.error emptyMsg) :=
  ⟨by decide, by decide, rfl⟩

/-- C4: `dequeue()`, `peek()` and `dequeueEnqueue(elem, priority)` produce the single
empty-queue error kind (the `InvalidOperationException` carrying the message
"The queue is empty.") exactly when `count == 0`, and never error on a non-empty
queue. -/
theorem C4_empty_error_iff {T' : Type} (s : PriorityQueue T') (e : T') (p : ℚ) :
    (((s.dequeue).1 = Except.error emptyMsg) ↔ s.count = 0) ∧
      (((s.peek).1 = Except.error emptyMsg) ↔ s.count = 0) ∧
      (((s.dequeueEnqueue e p).1 = Except.error emptyMsg) ↔ s.count = 0) := by
  by_cases h : s.heap_size = 0 <;>
    simp [dequeue, peek, dequeueEnqueue, count, h]

/-- C5: the claim states that on a non-empty queue, `enqueueDequeue(elem, priority)`
with `priority` above the minimum returns the previous minimum and leaves a queue
reflecting removal of that minimum and insertion of `(elem, priority)`.  The code
violates the second half: starting from the reachable queue `{0 ↦ 5, 1 ↦ 2^53}`,
`enqueueDequeue(2, 2^53 + 2)` returns the old minimum `0` as promised, but the
resulting queue drains `[2, 1]` although element `1` (priority `2^53`) has strictly
smaller priority than the inserted element `2` (priority `2^53 + 2`): the new reported
minimum does not reflect the insertion, because `_restoreDown` treats the child with
priority `≥ MAX_SAFE_INTEGER` as absent. -/
theorem C5_enqueueDequeue_wrong_min_after_insert :
    (((((mkQueue ([] : List (Nat × ℚ)) 4).enqueue 0 5).enqueue 1
          9007199254740992).enqueueDequeue 2 9007199254740994).1 = some 0) ∧
      (drain ((((mkQueue ([] : List (Nat × ℚ)) 4).enqueue 0 5).enqueue 1
          9007199254740992).enqueueDequeue 2 9007199254740994).2
        = [some 2, some 1]) ∧
      ((9007199254740992 : ℚ) < 9007199254740994) ∧
      (([some 2, some 1] : List (Option Nat)) ≠ [some 1, some 2]) :=
  ⟨by decide, by decide, by decide, by decide⟩

/-- C6: the claim states the min-heap property holds on the logical prefix after every
public operation.  The code violates it: the constructor applied to priorities
`2^53 + 2` and `2^53` (both exactly representable doubles) returns with the root's
priority strictly greater than its child's, because `_restoreDown` treated the child —
whose priority is not strictly below the `MAX_SAFE_INTEGER` sentinel — as absent. -/
theorem C6_heap_invariant_broken_by_constructor :
    heapOK (mkQueue [((0 : Nat), (9007199254740994 : ℚ)), (1, 9007199254740992)] 4)
        = false ∧
      (mkQueue [((0 : Nat), (9007199254740994 : ℚ)), (1, 9007199254740992)] 4).count
        = 2 :=
  ⟨by decide, by decide⟩

/-- C7: for every reachable queue state, `shrink()` followed by a full drain produces
exactly the same ordered sequence of elements as draining the same state without
`shrink()`; in particular `shrink` changes neither the dequeue order nor `count`. -/
theorem C7_shrink_preserves_drain {T' : Type} (s : PriorityQueue T') (h : Reachable s) :
    drain s.shrink = drain s ∧ (s.shrink).count = s.count := by
  have hsp := reachable_span h
  refine ⟨?_, rfl⟩
  unfold drain
  rw [shrink_size]
  exact drainGo_congr s.heap_size (drainEquiv_shrink s hsp)

/-- Witness for C7 at a concrete reachable state (bulk construction, one `enqueue`,
one `dequeue`). -/
theorem C7_shrink_preserves_drain_witness :
    drain (((((mkQueue [((10 : Nat), (3 : ℚ)), (11, 1), (12, 2)] 2).enqueue 13
            0).dequeue).2).shrink)
        = drain ((((mkQueue [((10 : Nat), (3 : ℚ)), (11, 1), (12, 2)] 2).enqueue 13
            0).dequeue).2) ∧
      (((((mkQueue [((10 : Nat), (3 : ℚ)), (11, 1), (12, 2)] 2).enqueue 13
            0).dequeue).2).shrink).count
        = ((((mkQueue [((10 : Nat), (3 : ℚ)), (11, 1), (12, 2)] 2).enqueue 13
            0).dequeue).2).count :=
  C7_shrink_preserves_drain _
    (Reachable.dequeue (Reachable.enqueue 13 0
      (Reachable.mkQueue [((10 : Nat), (3 : ℚ)), (11, 1), (12, 2)] 2)))

/-- C8 (counterexample): the claim states the heapify sweep runs `restoreDown` on
exactly the indices `floor((n-2)/k) .. 0`.  For `n = 5`, `k = 4` the code's sweep is
`[1, 0]` while the claimed sweep is `[0]`: the loop starts at `floor((n-1)/k)`, one leaf
beyond the last non-leaf. -/
theorem C8_sweep_start_mismatch :
    heapifySweep 5 4 = [1, 0] ∧ specHeapifySweep 5 4 = [0] ∧
      heapifySweep 5 4 ≠ specHeapifySweep 5 4 :=
  ⟨by decide, by decide, by decide⟩

/-- C8 (amended): the sweep the constructor (and the bulk branch of `enqueueRange`,
there with `n` the pre-insertion heap size) actually runs starts at `floor((n-1)/k)`:
it is the spec's sweep over the internal nodes `floor((n-2)/k) .. 0`, preceded by one
extra index — a leaf, on which `restoreDown` is a no-op — exactly when `k ∣ n - 1`. -/
theorem C8_sweep_start_amended (n k : Nat) (hk : 1 ≤ k) (hn : 1 ≤ n) :
    heapifySweep n k
      = (if k ∣ (n - 1) then [(n - 1) / k] else []) ++ specHeapifySweep n k := by
  rcases Nat.lt_or_ge n 2 with h2 | h2
  · have hn1 : n = 1 := by omega
    subst hn1
    simp [heapifySweep, specHeapifySweep, List.range_succ]
  · have h0 : ¬n = 0 := by omega
    have h1 : ¬n ≤ 1 := by omega
    have ha : n - 1 = (n - 2) + 1 := by omega
    unfold heapifySweep specHeapifySweep
    rw [if_neg h0, if_neg h1, ha, Nat.succ_div]
    by_cases hd : k ∣ (n - 2) + 1
    · simp only [if_pos hd]
      rw [List.range_succ, List.reverse_append]
      rfl
    · simp only [if_neg hd]
      simp

/-- Witness for C8 (amended) at `n = 5`, `k = 4`. -/
theorem C8_sweep_start_amended_witness :
    (1 ≤ 4) ∧ (1 ≤ 5) ∧
      heapifySweep 5 4
        = (if 4 ∣ (5 - 1) then [(5 - 1) / 4] else []) ++ specHeapifySweep 5 4 :=
  ⟨by decide, by decide, C8_sweep_start_amended 5 4 (by decide) (by decide)⟩

/-- C9 (counterexample): the claim states that on every empty queue `enqueueDequeue`
returns no element (`undefined`).  On the *used* empty queue obtained by
`enqueue(0, 5)` then `dequeue()`, `enqueueDequeue(1, 3)` compares `3` against the stale
root priority `5` left in the backing array, takes the no-mutation branch, and returns
the element `1` that was just passed in — not `undefined`. -/
theorem C9_enqueueDequeue_empty_returns_elem :
    ((((mkQueue ([] : List (Nat × ℚ)) 4).enqueue 0 5).dequeue).2.count = 0) ∧
      (((((mkQueue ([] : List (Nat × ℚ)) 4).enqueue 0
            5).dequeue).2.enqueueDequeue 1 3).1 = some 1) ∧
      (some 1 ≠ (none : Option Nat)) :=
  ⟨by decide, by decide, by decide⟩

/-- C9 (amended): on every empty queue (`count == 0`), `enqueueDequeue(elem, priority)`
raises no error — in this embedding it is a total function with no error outcome, as
the source has no `throw` — and leaves `count` equal to `0`.  Its return value depends
on residual internal state (it can be `elem` or a stale previously-dequeued element,
and is `undefined` only on a fresh queue). -/
theorem C9_enqueueDequeue_empty_keeps_count {T' : Type} (s : PriorityQueue T') (e : T')
    (p : ℚ) (h : s.count = 0) : ((s.enqueueDequeue e p).2).count = 0 := by
  have h' : s.heap_size = 0 := h
  unfold enqueueDequeue
  split
  · exact h'
  · show (writeElem _ _ _).heap_size = 0
    rw [writeElem_heap_size]
    exact h'

/-- Witness for C9 (amended) at a fresh empty queue. -/
theorem C9_enqueueDequeue_empty_keeps_count_witness :
    (mkQueue ([] : List (Nat × ℚ)) 4).count = 0 ∧
      (((mkQueue ([] : List (Nat × ℚ)) 4).enqueueDequeue 5 2).2).count = 0 :=
  ⟨rfl, C9_enqueueDequeue_empty_keeps_count _ 5 2 rfl⟩

/-- C10: whenever `dequeue()`, `peek()` or `dequeueEnqueue(elem, priority)` raises the
empty-queue error because `count == 0`, the state is completely unchanged: the error is
produced before any mutation of the heap, the element store or the recycler. -/
theorem C10_error_leaves_state_unchanged {T' : Type} (s : PriorityQueue T') (e : T')
    (p : ℚ) (h : s.count = 0) :
    s.dequeue = (Except.error emptyMsg, s) ∧ s.peek = (Except.error emptyMsg, s) ∧
      s.dequeueEnqueue e p = (Except.error emptyMsg, s) := by
  have h' : s.heap_size = 0 := h
  refine ⟨?_, ?_, ?_⟩ <;> simp [dequeue, peek, dequeueEnqueue, h']

/-- Witness for C10 at a fresh empty queue. -/
theorem C10_error_leaves_state_unchanged_witness :
    (mkQueue ([] : List (Nat × ℚ)) 4).count = 0 ∧
      ((mkQueue ([] : List (Nat × ℚ)) 4).dequeue
          = (Except.error emptyMsg, mkQueue ([] : List (Nat × ℚ)) 4) ∧
        (mkQueue ([] : List (Nat × ℚ)) 4).peek
          = (Except.error emptyMsg, mkQueue ([] : List (Nat × ℚ)) 4) ∧
        (mkQueue ([] : List (Nat × ℚ)) 4).dequeueEnqueue 7 1
          = (Except.error emptyMsg, mkQueue ([] : List (Nat × ℚ)) 4)) :=
  ⟨rfl, C10_error_leaves_state_unchanged (mkQueue ([] : List (Nat × ℚ)) 4) 7 1 rfl⟩

end PriorityQueue

end JsPQ
